import Mathlib

/-!
Verification of `scripts/process_favicon.py`.

The script loads an RGBA image, classifies every pixel as "car" (foreground)
or background by a colour heuristic, zeroes background pixels, crops to the
bounding box of non-transparent pixels plus a 5-pixel margin clamped to the
image bounds, and exports thumbnails and fixed-size resizes.

Shallow embedding choices:
* a pixel is four natural-number channels (r, g, b, a), each in 0..255 in
  practice but the proofs do not need the upper bound;
* an image is a width, a height and a pixel map on coordinates `(x, y)`;
* the in-place double loop of `remove_dark_background` is embedded as a
  `List.foldl` over the row-major coordinate enumeration, updating one map
  entry per step, exactly as the Python loop writes `pixels[x, y]`;
* `Image.getbbox` (Pillow, RGBA, default `alpha_only`) is embedded as the
  bounding box of in-range coordinates whose alpha channel is non-zero,
  returned as `(left, top, right, bottom)` with exclusive right and bottom,
  or `none` when the image is fully transparent;
* `resize` forces the target dimensions; its pixel content depends on the
  resampling filter (LANCZOS), which is kept as an explicit parameter
  since no claim depends on the resampled colour values;
* the real-valued aspect computation of `Image.thumbnail` is embedded over
  `ℚ` (exact arithmetic; the Python floats agree on all quantities the
  claims mention).
-/

/-- One RGBA pixel: the 4-tuple `(r, g, b, a)` read from `pixels[x, y]`. -/
structure Pixel where
  r : ℕ
  g : ℕ
  b : ℕ
  a : ℕ
deriving DecidableEq, Repr

/-- A pixel map: colour value at each coordinate `(x, y)`. -/
def PixMap : Type := ℕ × ℕ → Pixel

/-- An in-memory RGBA raster. -/
structure Image where
  width : ℕ
  height : ℕ
  pix : PixMap

/-- The `is_car_color` test of `remove_dark_background`:
`g > 100 and (g > r + 20 or b > r + 20)` or `b > 150 and g > 150`. -/
def is_car_color (p : Pixel) : Bool :=
  (100 < p.g && (p.r + 20 < p.g || p.r + 20 < p.b)) || (150 < p.b && 150 < p.g)

/-- One iteration body of the classification loop: keep car-coloured pixels,
rewrite every other pixel to `(0, 0, 0, 0)`. -/
def classifyPixel (p : Pixel) : Pixel :=
  if is_car_color p then p else ⟨0, 0, 0, 0⟩

/-- Write `classifyPixel` of the current value at coordinate `c`, leaving
every other coordinate alone (one execution of the loop body). -/
def classifyStep (p : PixMap) (c : ℕ × ℕ) : PixMap :=
  fun c' => if c' = c then classifyPixel (p c) else p c'

/-- The classification loop over an explicit traversal order. -/
def classifyLoop (coords : List (ℕ × ℕ)) (p : PixMap) : PixMap :=
  coords.foldl classifyStep p

/-- The source's traversal order: `for y in range(height): for x in range(width)`. -/
def allCoords (w h : ℕ) : List (ℕ × ℕ) :=
  (List.range h).flatMap (fun y => (List.range w).map (fun x => (x, y)))

/-- The classification pass of `remove_dark_background`: run the loop over
every in-range coordinate, in the source's row-major order. -/
def classifyImage (img : Image) : Image :=
  { width := img.width, height := img.height,
    pix := classifyLoop (allCoords img.width img.height) img.pix }

/-- The in-range coordinates whose pixel is not fully transparent
(`alpha ≠ 0`): the coordinates `img.getbbox()` ranges over. -/
def carCoords (img : Image) : Finset (ℕ × ℕ) :=
  (Finset.range img.width ×ˢ Finset.range img.height).filter
    (fun c => (img.pix c).a ≠ 0)

/-- Pillow's `img.getbbox()` on an RGBA image (default `alpha_only`): the
bounding box `(left, upper, right, lower)` of the pixels with non-zero alpha,
right and lower exclusive, or `None` when every pixel is transparent. -/
def getbbox (img : Image) : Option (ℕ × ℕ × ℕ × ℕ) :=
  if h : (carCoords img).Nonempty then
    some ((carCoords img).inf' h (·.1), (carCoords img).inf' h (·.2),
          (carCoords img).sup' h (·.1) + 1, (carCoords img).sup' h (·.2) + 1)
  else none

/-- Pillow's `img.crop((left, top, right, bottom))` for a rectangle inside
the image: the result has size `(right - left, bottom - top)` and its pixel
`(x, y)` is the source pixel `(x + left, y + top)`. -/
def Image.crop (img : Image) (left top right bottom : ℕ) : Image :=
  { width := right - left, height := bottom - top,
    pix := fun c => img.pix (c.1 + left, c.2 + top) }

/-- The crop rectangle of `remove_dark_background`: the bounding box expanded
by `padding = 5` on each side, clamped to the image bounds
(`max(0, . - 5)` computed over the integers as in Python, `min(w, . + 5)`). -/
def clampRect (w h l t r b : ℕ) : ℕ × ℕ × ℕ × ℕ :=
  ((max 0 ((l : ℤ) - 5)).toNat, (max 0 ((t : ℤ) - 5)).toNat,
   min w (r + 5), min h (b + 5))

/-- The pure content of `remove_dark_background` (file I/O elided): classify
every pixel, then crop to the padded, clamped bounding box when the bounding
box exists, and skip the crop otherwise. -/
def remove_dark_background (img : Image) : Image :=
  let cls := classifyImage img
  match getbbox cls with
  | some (l, t, r, b) =>
      let rect := clampRect img.width img.height l t r b
      cls.crop rect.1 rect.2.1 rect.2.2.1 rect.2.2.2
  | none => cls

/-- A resampling filter: given the source image and the target dimensions,
produce the pixel content of the resized image.  LANCZOS is one such filter;
no claim depends on the resampled colour values, so the filter is kept
abstract and every theorem quantifies over it. -/
def Resample : Type := Image → ℕ → ℕ → PixMap

/-- Pillow's `img.resize((w, h), filter)`: forces the exact target
dimensions, whatever the source size is. -/
def Image.resize (filter : Resample) (img : Image) (w h : ℕ) : Image :=
  { width := w, height := h, pix := filter img w h }

/-- `round_aspect` from Pillow's `Image.thumbnail`:
`max(min(math.floor(number), math.ceil(number), key=key), 1)` (Python's
`min` keeps the floor on a key tie). -/
def round_aspect (number : ℚ) (key : ℤ → ℚ) : ℤ :=
  max (if key ⌊number⌋ ≤ key ⌈number⌉ then ⌊number⌋ else ⌈number⌉) 1

/-- The output dimensions of `img.thumbnail((128, 128), ...)` on a `w × h`
image, following Pillow's `preserve_aspect_ratio`: no change when the image
already fits in the 128 × 128 box; otherwise the larger side is forced to
128 and the other is the rounding of the exact aspect-preserving value
(never below 1).  Python's float arithmetic is embedded as exact `ℚ`
arithmetic. -/
def thumbnail_dims (w h : ℕ) : ℕ × ℕ :=
  if w ≤ 128 ∧ h ≤ 128 then (w, h)
  else
    let aspect : ℚ := (w : ℚ) / (h : ℚ)
    if aspect ≤ 1 then
      ((round_aspect (128 * aspect) (fun n => |aspect - (n : ℚ) / 128|)).toNat, 128)
    else
      (128,
       (round_aspect (128 / aspect)
         (fun n => if n = 0 then 0 else |aspect - 128 / (n : ℚ)|)).toNat)

/-- `create_favicon` (file I/O elided): `favicon.thumbnail((128, 128),
LANCZOS)` — resize to `thumbnail_dims`, skipping the resize when the size is
already right, as Pillow does. -/
def create_favicon (filter : Resample) (img : Image) : Image :=
  let d := thumbnail_dims img.width img.height
  if d = (img.width, img.height) then img else Image.resize filter img d.1 d.2

/-- The fixed size mapping of `create_favicon_sizes` (Python dicts iterate
in insertion order). -/
def favicon_sizes : List (String × ℕ) :=
  [("favicon-16x16.png", 16), ("favicon-32x32.png", 32),
   ("favicon-192x192.png", 192), ("apple-touch-icon.png", 180)]

/-- The PNG outputs of `create_favicon_sizes`: one exact `size × size`
resize per entry of `favicon_sizes`, written under that entry's filename. -/
def create_favicon_sizes_pngs (filter : Resample) (img : Image) :
    List (String × Image) :=
  favicon_sizes.map (fun e => (e.1, Image.resize filter img e.2 e.2))

/-- `ico_sizes = [(16, 16), (32, 32), (48, 48)]`. -/
def ico_sizes : List (ℕ × ℕ) := [(16, 16), (32, 32), (48, 48)]

/-- The images appended into the ICO container: one exact resize of the
input per entry of `ico_sizes`, in order. -/
def ico_images (filter : Resample) (img : Image) : List Image :=
  ico_sizes.map (fun s => Image.resize filter img s.1 s.2)

/-- The `sizes` argument passed to the ICO save call:
`[(img.width, img.height) for img in ico_images]`. -/
def ico_recorded_sizes (filter : Resample) (img : Image) : List (ℕ × ℕ) :=
  (ico_images filter img).map (fun i => (i.width, i.height))

/-- A concrete single-colour test image, for witnesses and counterexamples. -/
def solidImage (w h : ℕ) (p : Pixel) : Image :=
  { width := w, height := h, pix := fun _ => p }

/-- A concrete resampling filter (nearest-pixel placeholder), used only to
instantiate witnesses; the theorems hold for every filter. -/
def someFilter : Resample := fun img _ _ => img.pix

theorem is_car_color_iff (p : Pixel) :
    is_car_color p = true ↔
      (100 < p.g ∧ (p.r + 20 < p.g ∨ p.r + 20 < p.b)) ∨ (150 < p.b ∧ 150 < p.g) := by
  simp [is_car_color]

theorem classifyPixel_idem (p : Pixel) :
    classifyPixel (classifyPixel p) = classifyPixel p := by
  by_cases h : is_car_color p
  · simp [classifyPixel, h]
  · have h0 : is_car_color (⟨0, 0, 0, 0⟩ : Pixel) = false := by decide
    simp [classifyPixel, h, h0]

theorem mem_allCoords {w h : ℕ} {c : ℕ × ℕ} :
    c ∈ allCoords w h ↔ c.1 < w ∧ c.2 < h := by
  obtain ⟨x, y⟩ := c
  simp only [allCoords, List.mem_flatMap, List.mem_map, List.mem_range, Prod.mk.injEq]
  aesop

/-- The loop computes `classifyPixel` pointwise at every visited coordinate
and leaves the rest of the map alone, in any traversal order (duplicate
visits included, by idempotence of the body). -/
theorem classifyLoop_eq (coords : List (ℕ × ℕ)) (p : PixMap) (c : ℕ × ℕ) :
    classifyLoop coords p c = if c ∈ coords then classifyPixel (p c) else p c := by
  induction coords generalizing p with
  | nil => simp [classifyLoop]
  | cons d ds ih =>
    show classifyLoop ds (classifyStep p d) c = _
    rw [ih]
    by_cases hds : c ∈ ds
    · by_cases hcd : c = d
      · subst hcd
        simp [hds, classifyStep, classifyPixel_idem]
      · simp [hds, classifyStep, hcd]
    · by_cases hcd : c = d
      · subst hcd
        simp [hds, classifyStep]
      · simp [hds, classifyStep, hcd]

/-- At an in-range coordinate the classified image is `classifyPixel` of the
original pixel. -/
theorem classifyImage_pix_in (img : Image) (c : ℕ × ℕ)
    (hx : c.1 < img.width) (hy : c.2 < img.height) :
    (classifyImage img).pix c = classifyPixel (img.pix c) := by
  simp [classifyImage, classifyLoop_eq, mem_allCoords, hx, hy]

/-- Out-of-range coordinates are never written by the loop. -/
theorem classifyImage_pix_out (img : Image) (c : ℕ × ℕ)
    (h : ¬(c.1 < img.width ∧ c.2 < img.height)) :
    (classifyImage img).pix c = img.pix c := by
  simp only [classifyImage, classifyLoop_eq, mem_allCoords]
  simp [h]

theorem mem_carCoords {img : Image} {c : ℕ × ℕ} :
    c ∈ carCoords img ↔ c.1 < img.width ∧ c.2 < img.height ∧ (img.pix c).a ≠ 0 := by
  simp [carCoords, Finset.mem_filter, Finset.mem_product, and_assoc]

/-- Evaluation helper for the spec's 500 × 300 example: the exact
aspect-preserving height is `384/5 = 76.8`, whose ceiling wins the rounding. -/
theorem thumbnail_dims_500_300 : thumbnail_dims 500 300 = (128, 77) := by
  have hc : (⌈(384 : ℚ) / 5⌉ : ℤ) = 77 := by norm_num [Int.ceil_eq_iff]
  have hf : (⌊(384 : ℚ) / 5⌋ : ℤ) = 76 := by norm_num [Int.floor_eq_iff]
  rw [thumbnail_dims]
  norm_num [round_aspect, hc, hf, abs_of_pos]
  decide

/-- Evaluation helper for the spec's 50 × 50 example: the image already fits
in the 128 × 128 box, so the dimensions are unchanged. -/
theorem thumbnail_dims_50_50 : thumbnail_dims 50 50 = (50, 50) := by
  rw [thumbnail_dims]
  norm_num

/-- C1, as stated in the claim (with "if and only if"), fails on the code:
a pixel that is already fully transparent and matches neither rule — for
example `(0, 0, 0, 0)` — is rewritten to `(0, 0, 0, 0)`, so its alpha is
unchanged even though the classification rule does not hold of it. -/
theorem C1_counterexample :
    ¬ (∀ (img : Image) (c : ℕ × ℕ), c.1 < img.width → c.2 < img.height →
        ((((classifyImage img).pix c).a = (img.pix c).a ↔
            is_car_color (img.pix c) = true) ∧
         (is_car_color (img.pix c) = false → ((classifyImage img).pix c).a = 0))) := by
  intro hcl
  have h := (hcl (solidImage 1 1 ⟨0, 0, 0, 0⟩) (0, 0) (by decide) (by decide)).1
  have hcar : is_car_color ((solidImage 1 1 ⟨0, 0, 0, 0⟩).pix (0, 0)) = true :=
    h.mp (by decide)
  exact absurd hcar (by decide)

/-- C1 (amended): after the classification pass, a pixel's alpha channel is
unchanged if and only if the pixel satisfies a classification rule or its
alpha was already 0; every pixel satisfying neither rule has its alpha set
to exactly 0. -/
theorem C1_classification_alpha (img : Image) (c : ℕ × ℕ)
    (hx : c.1 < img.width) (hy : c.2 < img.height) :
    (((classifyImage img).pix c).a = (img.pix c).a ↔
      (is_car_color (img.pix c) = true ∨ (img.pix c).a = 0)) ∧
    (is_car_color (img.pix c) = false → ((classifyImage img).pix c).a = 0) := by
  rw [classifyImage_pix_in img c hx hy]
  by_cases h : is_car_color (img.pix c)
  · simp [classifyPixel, h]
  · simp [classifyPixel, h, eq_comm]

/-- Witness for C1: the amended statement evaluated on a concrete 2 × 2
green image. -/
theorem C1_classification_alpha_witness :
    (((classifyImage (solidImage 2 2 ⟨0, 200, 0, 255⟩)).pix (0, 0)).a =
        ((solidImage 2 2 ⟨0, 200, 0, 255⟩).pix (0, 0)).a ↔
      (is_car_color ((solidImage 2 2 ⟨0, 200, 0, 255⟩).pix (0, 0)) = true ∨
        ((solidImage 2 2 ⟨0, 200, 0, 255⟩).pix (0, 0)).a = 0)) ∧
    (is_car_color ((solidImage 2 2 ⟨0, 200, 0, 255⟩).pix (0, 0)) = false →
      ((classifyImage (solidImage 2 2 ⟨0, 200, 0, 255⟩)).pix (0, 0)).a = 0) :=
  C1_classification_alpha (solidImage 2 2 ⟨0, 200, 0, 255⟩) (0, 0)
    (by decide) (by decide)

/-- C2, as stated, fails on the code: a background pixel has its red, green
and blue channels zeroed, not preserved — `pixels[x, y] = (0, 0, 0, 0)`
overwrites all four channels.  Concretely, the dark red pixel
`(50, 10, 10, 255)` is background and its red channel becomes 0, not 50. -/
theorem C2_counterexample :
    ¬ (∀ (img : Image) (c : ℕ × ℕ), c.1 < img.width → c.2 < img.height →
        is_car_color (img.pix c) = false →
        (((classifyImage img).pix c).r = (img.pix c).r ∧
         ((classifyImage img).pix c).g = (img.pix c).g ∧
         ((classifyImage img).pix c).b = (img.pix c).b)) := by
  intro hcl
  have h := (hcl (solidImage 1 1 ⟨50, 10, 10, 255⟩) (0, 0)
    (by decide) (by decide) (by decide)).1
  exact absurd h (by decide)

/-- C2 (amended): a pixel classified as background is rewritten to the fully
zero pixel `(0, 0, 0, 0)`: its alpha becomes 0 and its red, green and blue
channels are zeroed as well (a foreground pixel is left entirely
unchanged). -/
theorem C2_background_zeroed (img : Image) (c : ℕ × ℕ)
    (hx : c.1 < img.width) (hy : c.2 < img.height) :
    (is_car_color (img.pix c) = false →
      (classifyImage img).pix c = ⟨0, 0, 0, 0⟩) ∧
    (is_car_color (img.pix c) = true → (classifyImage img).pix c = img.pix c) := by
  rw [classifyImage_pix_in img c hx hy]
  by_cases h : is_car_color (img.pix c)
  · simp [classifyPixel, h]
  · simp [classifyPixel, h]

/-- Witness for C2: the amended statement evaluated on a concrete 1 × 1
dark-red image. -/
theorem C2_background_zeroed_witness :
    (is_car_color ((solidImage 1 1 ⟨50, 10, 10, 255⟩).pix (0, 0)) = false →
      (classifyImage (solidImage 1 1 ⟨50, 10, 10, 255⟩)).pix (0, 0) = ⟨0, 0, 0, 0⟩) ∧
    (is_car_color ((solidImage 1 1 ⟨50, 10, 10, 255⟩).pix (0, 0)) = true →
      (classifyImage (solidImage 1 1 ⟨50, 10, 10, 255⟩)).pix (0, 0) =
        (solidImage 1 1 ⟨50, 10, 10, 255⟩).pix (0, 0)) :=
  C2_background_zeroed (solidImage 1 1 ⟨50, 10, 10, 255⟩) (0, 0)
    (by decide) (by decide)

/-- C9: the classification pass is per-pixel and order-irrelevant — at every
in-range coordinate the result is a function of that coordinate's original
pixel alone, two images that agree at a coordinate classify to the same
value there, and any two traversal orders that visit the same coordinates
(in particular, any permutation of the source's row-major order) produce
the same classified pixel map. -/
theorem C9_per_pixel_order_irrelevant (img1 img2 : Image) (c : ℕ × ℕ)
    (p : PixMap) (coords coords' : List (ℕ × ℕ))
    (h1x : c.1 < img1.width) (h1y : c.2 < img1.height)
    (h2x : c.1 < img2.width) (h2y : c.2 < img2.height)
    (hagree : img1.pix c = img2.pix c) (hperm : coords.Perm coords') :
    (classifyImage img1).pix c = classifyPixel (img1.pix c) ∧
    (classifyImage img1).pix c = (classifyImage img2).pix c ∧
    classifyLoop coords p = classifyLoop coords' p := by
  refine ⟨classifyImage_pix_in _ _ h1x h1y, ?_, ?_⟩
  · rw [classifyImage_pix_in _ _ h1x h1y, classifyImage_pix_in _ _ h2x h2y, hagree]
  · funext d
    rw [classifyLoop_eq, classifyLoop_eq]
    simp [hperm.mem_iff]

/-- Witness for C9: two concrete images agreeing at the origin and a
two-element traversal order against its swap. -/
theorem C9_per_pixel_order_irrelevant_witness :
    (classifyImage (solidImage 1 1 ⟨0, 200, 0, 255⟩)).pix (0, 0) =
      classifyPixel ((solidImage 1 1 ⟨0, 200, 0, 255⟩).pix (0, 0)) ∧
    (classifyImage (solidImage 1 1 ⟨0, 200, 0, 255⟩)).pix (0, 0) =
      (classifyImage (solidImage 2 2 ⟨0, 200, 0, 255⟩)).pix (0, 0) ∧
    classifyLoop [(0, 0), (1, 0)] (fun _ => ⟨0, 200, 0, 255⟩) =
      classifyLoop [(1, 0), (0, 0)] (fun _ => ⟨0, 200, 0, 255⟩) :=
  C9_per_pixel_order_irrelevant (solidImage 1 1 ⟨0, 200, 0, 255⟩)
    (solidImage 2 2 ⟨0, 200, 0, 255⟩) (0, 0) (fun _ => ⟨0, 200, 0, 255⟩)
    [(0, 0), (1, 0)] [(1, 0), (0, 0)]
    (by decide) (by decide) (by decide) (by decide) rfl
    (List.Perm.swap (1, 0) (0, 0) [])

/-- C10: the classification pass is idempotent — classifying an already
classified image changes nothing, since a pixel rewritten to `(0, 0, 0, 0)`
matches neither rule and is rewritten to `(0, 0, 0, 0)` again, while a kept
pixel is unchanged and is kept again. -/
theorem C10_classify_idempotent (img : Image) :
    classifyImage (classifyImage img) = classifyImage img := by
  simp only [classifyImage]
  congr 1
  funext c
  rw [classifyLoop_eq, classifyLoop_eq]
  by_cases h : c ∈ allCoords img.width img.height
  · simp [h, classifyLoop_eq, classifyPixel_idem]
  · simp [h, classifyLoop_eq]

/-- The crop rectangle in truncated natural-number arithmetic: Python's
`max(0, v - 5)` over the integers is `v - 5` over `ℕ`. -/
theorem clampRect_eq (w h l t r b : ℕ) :
    clampRect w h l t r b = (l - 5, t - 5, min w (r + 5), min h (b + 5)) := by
  unfold clampRect
  congr 1
  · omega
  · congr 1
    omega

/-- Destructor for a successful `getbbox`: the components are the extrema of
the non-transparent coordinates. -/
theorem getbbox_some_elim {img : Image} {l t r b : ℕ}
    (h : getbbox img = some (l, t, r, b)) :
    ∃ hne : (carCoords img).Nonempty,
      l = (carCoords img).inf' hne (·.1) ∧ t = (carCoords img).inf' hne (·.2) ∧
      r = (carCoords img).sup' hne (·.1) + 1 ∧
      b = (carCoords img).sup' hne (·.2) + 1 := by
  by_cases hne : (carCoords img).Nonempty
  · rw [getbbox, dif_pos hne] at h
    simp only [Option.some.injEq, Prod.mk.injEq] at h
    obtain ⟨h1, h2, h3, h4⟩ := h
    exact ⟨hne, h1.symm, h2.symm, h3.symm, h4.symm⟩
  · rw [getbbox, dif_neg hne] at h
    cases h

/-- Truncated subtraction of a constant commutes with `Finset.inf'` on `ℕ`. -/
theorem inf'_nat_sub {ι : Type} (s : Finset ι) (H : s.Nonempty) (f : ι → ℕ)
    (k : ℕ) : s.inf' H (fun i => f i - k) = s.inf' H f - k := by
  apply le_antisymm
  · obtain ⟨i, hi, hfi⟩ := Finset.exists_mem_eq_inf' H f
    calc s.inf' H (fun j => f j - k) ≤ f i - k := Finset.inf'_le _ hi
    _ = s.inf' H f - k := by rw [hfi]
  · exact Finset.le_inf' H _ (fun i hi => Nat.sub_le_sub_right (Finset.inf'_le _ hi) k)

/-- Truncated subtraction of a constant commutes with `Finset.sup'` on `ℕ`. -/
theorem sup'_nat_sub {ι : Type} (s : Finset ι) (H : s.Nonempty) (f : ι → ℕ)
    (k : ℕ) : s.sup' H (fun i => f i - k) = s.sup' H f - k := by
  apply le_antisymm
  · exact Finset.sup'_le H _ (fun i hi => Nat.sub_le_sub_right (Finset.le_sup' f hi) k)
  · obtain ⟨i, hi, hfi⟩ := Finset.exists_mem_eq_sup' H f
    calc s.sup' H f - k = f i - k := by rw [hfi]
    _ ≤ s.sup' H (fun j => f j - k) := Finset.le_sup' (fun j => f j - k) hi

/-- When every non-transparent coordinate lies inside the crop rectangle and
the rectangle lies inside the image, the non-transparent coordinates of the
cropped image are exactly the translates of those of the source. -/
theorem carCoords_crop (cls : Image) (left top right bottom : ℕ)
    (hrw : right ≤ cls.width) (hbh : bottom ≤ cls.height)
    (hcar : ∀ c ∈ carCoords cls,
      left ≤ c.1 ∧ c.1 < right ∧ top ≤ c.2 ∧ c.2 < bottom) :
    carCoords (cls.crop left top right bottom) =
      (carCoords cls).image (fun c => (c.1 - left, c.2 - top)) := by
  ext ⟨x, y⟩
  simp only [mem_carCoords, Image.crop, Finset.mem_image]
  constructor
  · rintro ⟨hx, hy, ha⟩
    refine ⟨(x + left, y + top), ⟨?_, ?_, ha⟩, ?_⟩
    · show x + left < cls.width
      omega
    · show y + top < cls.height
      omega
    · show (x + left - left, y + top - top) = (x, y)
      simp only [Prod.mk.injEq]
      constructor <;> omega
  · rintro ⟨⟨cx, cy⟩, hc, heq⟩
    obtain ⟨h1, h2, h3, h4⟩ := hcar (cx, cy) (mem_carCoords.mpr hc)
    obtain ⟨-, -, ha⟩ := hc
    have h1' : left ≤ cx := h1
    have h2' : cx < right := h2
    have h3' : top ≤ cy := h3
    have h4' : cy < bottom := h4
    simp only [Prod.mk.injEq] at heq
    obtain ⟨rfl, rfl⟩ := heq
    refine ⟨by omega, by omega, ?_⟩
    have hxx : cx - left + left = cx := by omega
    have hyy : cy - top + top = cy := by omega
    rw [hxx, hyy]
    exact ha

/-- `Finset.inf'` depends only on the underlying set (proof irrelevance). -/
theorem inf'_congr_set {ι : Type} {s₁ s₂ : Finset ι} (h₁ : s₁.Nonempty)
    (h₂ : s₂.Nonempty) (hs : s₁ = s₂) (f : ι → ℕ) :
    s₁.inf' h₁ f = s₂.inf' h₂ f := by
  subst hs
  rfl

/-- `Finset.sup'` depends only on the underlying set (proof irrelevance). -/
theorem sup'_congr_set {ι : Type} {s₁ s₂ : Finset ι} (h₁ : s₁.Nonempty)
    (h₂ : s₂.Nonempty) (hs : s₁ = s₂) (f : ι → ℕ) :
    s₁.sup' h₁ f = s₂.sup' h₂ f := by
  subst hs
  rfl

/-- A successful bounding box lies inside the image, is non-degenerate, and
contains every non-transparent coordinate. -/
theorem getbbox_bounds {img : Image} {l t r b : ℕ}
    (h : getbbox img = some (l, t, r, b)) :
    r ≤ img.width ∧ b ≤ img.height ∧ l < r ∧ t < b ∧
      ∀ c ∈ carCoords img, l ≤ c.1 ∧ c.1 < r ∧ t ≤ c.2 ∧ c.2 < b := by
  obtain ⟨hne, hl, ht, hr, hb⟩ := getbbox_some_elim h
  obtain ⟨c₀, hc₀⟩ := id hne
  obtain ⟨cw, hcw, hcweq⟩ := Finset.exists_mem_eq_sup' hne (·.1)
  obtain ⟨ch, hch, hcheq⟩ := Finset.exists_mem_eq_sup' hne (·.2)
  have hcw' := mem_carCoords.mp hcw
  have hch' := mem_carCoords.mp hch
  have h10 : (carCoords img).inf' hne (·.1) ≤ c₀.1 := Finset.inf'_le (·.1) hc₀
  have h20 : (carCoords img).inf' hne (·.2) ≤ c₀.2 := Finset.inf'_le (·.2) hc₀
  have h1s : c₀.1 ≤ (carCoords img).sup' hne (·.1) := Finset.le_sup' (·.1) hc₀
  have h2s : c₀.2 ≤ (carCoords img).sup' hne (·.2) := Finset.le_sup' (·.2) hc₀
  refine ⟨?_, ?_, by omega, by omega, ?_⟩
  · have := hcw'.1
    omega
  · have := hch'.2.1
    omega
  · intro c hc
    have i1 : (carCoords img).inf' hne (·.1) ≤ c.1 := Finset.inf'_le (·.1) hc
    have i2 : (carCoords img).inf' hne (·.2) ≤ c.2 := Finset.inf'_le (·.2) hc
    have s1 : c.1 ≤ (carCoords img).sup' hne (·.1) := Finset.le_sup' (·.1) hc
    have s2 : c.2 ≤ (carCoords img).sup' hne (·.2) := Finset.le_sup' (·.2) hc
    omega

/-- C4: when no pixel passes classification (empty bounding box), the crop
step is skipped and the output keeps the input's width and height. -/
theorem C4_empty_bbox_skips_crop (img : Image)
    (h : getbbox (classifyImage img) = none) :
    remove_dark_background img = classifyImage img ∧
    (remove_dark_background img).width = img.width ∧
    (remove_dark_background img).height = img.height := by
  have hout : remove_dark_background img = classifyImage img := by
    simp only [remove_dark_background, h]
  exact ⟨hout, by rw [hout]; rfl, by rw [hout]; rfl⟩

/-- Witness for C4: a 2 × 2 solid dark-gray image (the spec's degenerate
scenario, at a size small enough to evaluate) is fully background, so the
crop is skipped and the dimensions survive. -/
theorem C4_empty_bbox_skips_crop_witness :
    remove_dark_background (solidImage 2 2 ⟨20, 20, 20, 255⟩) =
      classifyImage (solidImage 2 2 ⟨20, 20, 20, 255⟩) ∧
    (remove_dark_background (solidImage 2 2 ⟨20, 20, 20, 255⟩)).width =
      (solidImage 2 2 ⟨20, 20, 20, 255⟩).width ∧
    (remove_dark_background (solidImage 2 2 ⟨20, 20, 20, 255⟩)).height =
      (solidImage 2 2 ⟨20, 20, 20, 255⟩).height :=
  C4_empty_bbox_skips_crop (solidImage 2 2 ⟨20, 20, 20, 255⟩) (by decide)

/-- C3: with a non-empty bounding box `(l, t, r, b)`, the function crops to
that box expanded by exactly 5 pixels on each side and clamped to the image
bounds: the crop rectangle is `(max(0, l-5), max(0, t-5), min(width, r+5),
min(height, b+5))`, which always satisfies `0 ≤ left`, `0 ≤ top`,
`right ≤ width`, `bottom ≤ height`. -/
theorem C3_crop_clamped (img : Image) (l t r b : ℕ)
    (h : getbbox (classifyImage img) = some (l, t, r, b)) :
    remove_dark_background img =
      (classifyImage img).crop (clampRect img.width img.height l t r b).1
        (clampRect img.width img.height l t r b).2.1
        (clampRect img.width img.height l t r b).2.2.1
        (clampRect img.width img.height l t r b).2.2.2 ∧
    ((clampRect img.width img.height l t r b).1 : ℤ) = max 0 ((l : ℤ) - 5) ∧
    ((clampRect img.width img.height l t r b).2.1 : ℤ) = max 0 ((t : ℤ) - 5) ∧
    (clampRect img.width img.height l t r b).2.2.1 = min img.width (r + 5) ∧
    (clampRect img.width img.height l t r b).2.2.2 = min img.height (b + 5) ∧
    0 ≤ (clampRect img.width img.height l t r b).1 ∧
    0 ≤ (clampRect img.width img.height l t r b).2.1 ∧
    (clampRect img.width img.height l t r b).2.2.1 ≤ img.width ∧
    (clampRect img.width img.height l t r b).2.2.2 ≤ img.height := by
  refine ⟨?_, ?_, ?_, ?_, ?_, Nat.zero_le _, Nat.zero_le _, ?_, ?_⟩
  · simp only [remove_dark_background, h]
  · simp only [clampRect_eq]
    omega
  · simp only [clampRect_eq]
    omega
  · simp only [clampRect_eq]
  · simp only [clampRect_eq]
  · simp only [clampRect_eq]
    exact min_le_left _ _
  · simp only [clampRect_eq]
    exact min_le_left _ _

/-- Witness for C3: evaluated on a concrete 1 × 1 green image, whose
bounding box is the whole image. -/
theorem C3_crop_clamped_witness :
    remove_dark_background (solidImage 1 1 ⟨0, 200, 0, 255⟩) =
      (classifyImage (solidImage 1 1 ⟨0, 200, 0, 255⟩)).crop
        (clampRect 1 1 0 0 1 1).1 (clampRect 1 1 0 0 1 1).2.1
        (clampRect 1 1 0 0 1 1).2.2.1 (clampRect 1 1 0 0 1 1).2.2.2 ∧
    ((clampRect 1 1 0 0 1 1).1 : ℤ) = max 0 ((0 : ℤ) - 5) ∧
    ((clampRect 1 1 0 0 1 1).2.1 : ℤ) = max 0 ((0 : ℤ) - 5) ∧
    (clampRect 1 1 0 0 1 1).2.2.1 = min 1 (1 + 5) ∧
    (clampRect 1 1 0 0 1 1).2.2.2 = min 1 (1 + 5) ∧
    0 ≤ (clampRect 1 1 0 0 1 1).1 ∧
    0 ≤ (clampRect 1 1 0 0 1 1).2.1 ∧
    (clampRect 1 1 0 0 1 1).2.2.1 ≤ 1 ∧
    (clampRect 1 1 0 0 1 1).2.2.2 ≤ 1 :=
  C3_crop_clamped (solidImage 1 1 ⟨0, 200, 0, 255⟩) 0 0 1 1 (by decide)

/-- C8: with a non-empty bounding box, translating the cropped image's
bounding box of non-transparent pixels back by the crop offset (the padded,
clamped top-left corner) recovers exactly the pre-crop bounding box. -/
theorem C8_bbox_roundtrip (img : Image) (l t r b : ℕ)
    (h : getbbox (classifyImage img) = some (l, t, r, b)) :
    ∃ l' t' r' b' : ℕ,
      getbbox (remove_dark_background img) = some (l', t', r', b') ∧
      l' + (clampRect img.width img.height l t r b).1 = l ∧
      t' + (clampRect img.width img.height l t r b).2.1 = t ∧
      r' + (clampRect img.width img.height l t r b).1 = r ∧
      b' + (clampRect img.width img.height l t r b).2.1 = b := by
  obtain ⟨hne, hl, ht, hr, hb⟩ := getbbox_some_elim h
  obtain ⟨hrw, hbh, hlr, htb, hcar⟩ := getbbox_bounds h
  have hrw' : r ≤ img.width := hrw
  have hbh' : b ≤ img.height := hbh
  have hsub : ∀ c ∈ carCoords (classifyImage img),
      l - 5 ≤ c.1 ∧ c.1 < min img.width (r + 5) ∧
      t - 5 ≤ c.2 ∧ c.2 < min img.height (b + 5) := by
    intro c hc
    obtain ⟨hc1, hc2, hc3, hc4⟩ := hcar c hc
    omega
  have hset := carCoords_crop (classifyImage img) (l - 5) (t - 5)
      (min img.width (r + 5)) (min img.height (b + 5))
      (show min img.width (r + 5) ≤ img.width from min_le_left _ _)
      (show min img.height (b + 5) ≤ img.height from min_le_left _ _) hsub
  have hne' : (carCoords ((classifyImage img).crop (l - 5) (t - 5)
      (min img.width (r + 5)) (min img.height (b + 5)))).Nonempty := by
    rw [hset]
    exact hne.image _
  have hout : remove_dark_background img =
      (classifyImage img).crop (l - 5) (t - 5)
        (min img.width (r + 5)) (min img.height (b + 5)) := by
    simp only [remove_dark_background, h, clampRect_eq]
  have himg : ((carCoords (classifyImage img)).image
      (fun c => (c.1 - (l - 5), c.2 - (t - 5)))).Nonempty := hne.image _
  have e1 : (carCoords ((classifyImage img).crop (l - 5) (t - 5)
        (min img.width (r + 5)) (min img.height (b + 5)))).inf' hne' (·.1) =
      (carCoords (classifyImage img)).inf' hne (·.1) - (l - 5) := by
    rw [inf'_congr_set hne' himg hset, Finset.inf'_image]
    exact inf'_nat_sub _ hne (·.1) (l - 5)
  have e2 : (carCoords ((classifyImage img).crop (l - 5) (t - 5)
        (min img.width (r + 5)) (min img.height (b + 5)))).inf' hne' (·.2) =
      (carCoords (classifyImage img)).inf' hne (·.2) - (t - 5) := by
    rw [inf'_congr_set hne' himg hset, Finset.inf'_image]
    exact inf'_nat_sub _ hne (·.2) (t - 5)
  have e3 : (carCoords ((classifyImage img).crop (l - 5) (t - 5)
        (min img.width (r + 5)) (min img.height (b + 5)))).sup' hne' (·.1) =
      (carCoords (classifyImage img)).sup' hne (·.1) - (l - 5) := by
    rw [sup'_congr_set hne' himg hset, Finset.sup'_image]
    exact sup'_nat_sub _ hne (·.1) (l - 5)
  have e4 : (carCoords ((classifyImage img).crop (l - 5) (t - 5)
        (min img.width (r + 5)) (min img.height (b + 5)))).sup' hne' (·.2) =
      (carCoords (classifyImage img)).sup' hne (·.2) - (t - 5) := by
    rw [sup'_congr_set hne' himg hset, Finset.sup'_image]
    exact sup'_nat_sub _ hne (·.2) (t - 5)
  have hbbox : getbbox (remove_dark_background img) =
      some (l - (l - 5), t - (t - 5),
        ((r - 1) - (l - 5)) + 1, ((b - 1) - (t - 5)) + 1) := by
    rw [hout, getbbox, dif_pos hne', e1, e2, e3, e4, ← hl, ← ht]
    have hr1 : (carCoords (classifyImage img)).sup' hne (·.1) = r - 1 := by omega
    have hb1 : (carCoords (classifyImage img)).sup' hne (·.2) = b - 1 := by omega
    rw [hr1, hb1]
  refine ⟨l - (l - 5), t - (t - 5), ((r - 1) - (l - 5)) + 1,
    ((b - 1) - (t - 5)) + 1, hbbox, ?_, ?_, ?_, ?_⟩ <;>
    simp only [clampRect_eq] <;> omega

/-- Witness for C8: evaluated on a concrete 1 × 1 green image. -/
theorem C8_bbox_roundtrip_witness :
    ∃ l' t' r' b' : ℕ,
      getbbox (remove_dark_background (solidImage 1 1 ⟨0, 200, 0, 255⟩)) =
        some (l', t', r', b') ∧
      l' + (clampRect 1 1 0 0 1 1).1 = 0 ∧
      t' + (clampRect 1 1 0 0 1 1).2.1 = 0 ∧
      r' + (clampRect 1 1 0 0 1 1).1 = 1 ∧
      b' + (clampRect 1 1 0 0 1 1).2.1 = 1 :=
  C8_bbox_roundtrip (solidImage 1 1 ⟨0, 200, 0, 255⟩) 0 0 1 1 (by decide)

/-- The output of `create_favicon` always has the dimensions computed by the
thumbnail step. -/
theorem create_favicon_dims (filter : Resample) (img : Image) :
    (create_favicon filter img).width = (thumbnail_dims img.width img.height).1 ∧
    (create_favicon filter img).height = (thumbnail_dims img.width img.height).2 := by
  unfold create_favicon
  by_cases hd : thumbnail_dims img.width img.height = (img.width, img.height)
  · simp only [if_pos hd, hd]
    exact ⟨rfl, rfl⟩
  · simp only [if_neg hd]
    exact ⟨rfl, rfl⟩

/-- The thumbnail dimensions fit in the 128 × 128 box and never exceed the
source dimensions. -/
theorem thumbnail_dims_le (w h : ℕ) (hw : 0 < w) (hh : 0 < h) :
    (thumbnail_dims w h).1 ≤ 128 ∧ (thumbnail_dims w h).2 ≤ 128 ∧
    (thumbnail_dims w h).1 ≤ w ∧ (thumbnail_dims w h).2 ≤ h := by
  unfold thumbnail_dims
  by_cases hfit : w ≤ 128 ∧ h ≤ 128
  · simp only [if_pos hfit]
    exact ⟨hfit.1, hfit.2, le_refl w, le_refl h⟩
  · simp only [if_neg hfit]
    by_cases hasp : ((w : ℚ) / (h : ℚ)) ≤ 1
    · simp only [if_pos hasp]
      have hwh : w ≤ h := by
        rw [div_le_one (by positivity)] at hasp
        exact_mod_cast hasp
      have hh128 : 128 < h := by omega
      have hq : 128 * ((w : ℚ) / (h : ℚ)) ≤ 128 := by
        calc 128 * ((w : ℚ) / (h : ℚ)) ≤ 128 * 1 :=
          mul_le_mul_of_nonneg_left hasp (by norm_num)
        _ = 128 := by norm_num
      have hqw : 128 * ((w : ℚ) / (h : ℚ)) < (w : ℚ) := by
        rw [← mul_div_assoc, div_lt_iff₀ (by positivity)]
        have h1 : (128 : ℚ) < (h : ℚ) := by exact_mod_cast hh128
        have h2 : (0 : ℚ) < (w : ℚ) := by positivity
        nlinarith
      have hceil1 : ⌈128 * ((w : ℚ) / (h : ℚ))⌉ ≤ 128 :=
        Int.ceil_le.mpr (by exact_mod_cast hq)
      have hceil2 : ⌈128 * ((w : ℚ) / (h : ℚ))⌉ ≤ (w : ℤ) :=
        Int.ceil_le.mpr (le_of_lt (by exact_mod_cast hqw))
      have hfloor1 : ⌊128 * ((w : ℚ) / (h : ℚ))⌋ ≤ (128 : ℤ) :=
        le_trans (Int.floor_le_ceil _) hceil1
      have hfloor2 : ⌊128 * ((w : ℚ) / (h : ℚ))⌋ ≤ (w : ℤ) :=
        le_trans (Int.floor_le_ceil _) hceil2
      have hra : round_aspect (128 * ((w : ℚ) / (h : ℚ)))
          (fun n => |(w : ℚ) / (h : ℚ) - (n : ℚ) / 128|) ≤ min 128 (w : ℤ) := by
        unfold round_aspect
        apply max_le
        · split
          · exact le_min hfloor1 hfloor2
          · exact le_min hceil1 hceil2
        · exact le_min (by norm_num) (by exact_mod_cast hw)
      refine ⟨?_, le_refl _, ?_, ?_⟩
      · exact Int.toNat_le.mpr (le_trans hra (min_le_left _ _))
      · exact Int.toNat_le.mpr (le_trans hra (min_le_right _ _))
      · omega
    · simp only [if_neg hasp]
      push_neg at hasp
      have hwh : h < w := by
        rw [one_lt_div (by positivity)] at hasp
        exact_mod_cast hasp
      have hw128 : 128 < w := by omega
      have hq : 128 / ((w : ℚ) / (h : ℚ)) ≤ 128 :=
        div_le_self (by norm_num) (le_of_lt hasp)
      have hqh : 128 / ((w : ℚ) / (h : ℚ)) < (h : ℚ) := by
        rw [div_div_eq_mul_div, div_lt_iff₀ (by positivity)]
        have h1 : (128 : ℚ) < (w : ℚ) := by exact_mod_cast hw128
        have h2 : (0 : ℚ) < (h : ℚ) := by positivity
        nlinarith
      have hceil1 : ⌈(128 : ℚ) / ((w : ℚ) / (h : ℚ))⌉ ≤ 128 :=
        Int.ceil_le.mpr (by exact_mod_cast hq)
      have hceil2 : ⌈(128 : ℚ) / ((w : ℚ) / (h : ℚ))⌉ ≤ (h : ℤ) :=
        Int.ceil_le.mpr (le_of_lt (by exact_mod_cast hqh))
      have hfloor1 : ⌊(128 : ℚ) / ((w : ℚ) / (h : ℚ))⌋ ≤ (128 : ℤ) :=
        le_trans (Int.floor_le_ceil _) hceil1
      have hfloor2 : ⌊(128 : ℚ) / ((w : ℚ) / (h : ℚ))⌋ ≤ (h : ℤ) :=
        le_trans (Int.floor_le_ceil _) hceil2
      have hra : round_aspect (128 / ((w : ℚ) / (h : ℚ)))
          (fun n => if n = 0 then 0 else |(w : ℚ) / (h : ℚ) - 128 / (n : ℚ)|) ≤
            min 128 (h : ℤ) := by
        unfold round_aspect
        apply max_le
        · split
          · exact le_min hfloor1 hfloor2
          · exact le_min hceil1 hceil2
        · exact le_min (by norm_num) (by exact_mod_cast hh)
      refine ⟨le_refl _, ?_, ?_, ?_⟩
      · exact Int.toNat_le.mpr (le_trans hra (min_le_left _ _))
      · omega
      · exact Int.toNat_le.mpr (le_trans hra (min_le_right _ _))

/-- C5: whatever the resampling filter, `create_favicon` produces an image
no larger than 128 pixels in either dimension, never scales up (each output
dimension is at most the input's, and an image already inside the 128 × 128
box is returned unchanged), and the aspect-rounded examples of the spec
hold: a 50 × 50 input keeps its size and a 500 × 300 input becomes
128 × 77. -/
theorem C5_create_favicon_bounds (filter : Resample) (img : Image)
    (hw : 0 < img.width) (hh : 0 < img.height) :
    (create_favicon filter img).width ≤ 128 ∧
    (create_favicon filter img).height ≤ 128 ∧
    (create_favicon filter img).width ≤ img.width ∧
    (create_favicon filter img).height ≤ img.height ∧
    (img.width ≤ 128 → img.height ≤ 128 → create_favicon filter img = img) ∧
    thumbnail_dims 50 50 = (50, 50) ∧
    thumbnail_dims 500 300 = (128, 77) := by
  obtain ⟨hdw, hdh⟩ := create_favicon_dims filter img
  obtain ⟨h1, h2, h3, h4⟩ := thumbnail_dims_le img.width img.height hw hh
  refine ⟨by omega, by omega, by omega, by omega, ?_,
    thumbnail_dims_50_50, thumbnail_dims_500_300⟩
  intro hfw hfh
  have hd : thumbnail_dims img.width img.height = (img.width, img.height) := by
    unfold thumbnail_dims
    rw [if_pos ⟨hfw, hfh⟩]
  unfold create_favicon
  rw [hd, if_pos rfl]

/-- Witness for C5: the theorem applied to a concrete 500 × 300 image, whose
favicon is 128 × 77. -/
theorem C5_create_favicon_bounds_witness :
    (create_favicon someFilter (solidImage 500 300 ⟨0, 200, 0, 255⟩)).width ≤ 128 ∧
    (create_favicon someFilter (solidImage 500 300 ⟨0, 200, 0, 255⟩)).height ≤ 128 ∧
    (create_favicon someFilter (solidImage 500 300 ⟨0, 200, 0, 255⟩)).width ≤ 500 ∧
    (create_favicon someFilter (solidImage 500 300 ⟨0, 200, 0, 255⟩)).height ≤ 300 ∧
    ((500 : ℕ) ≤ 128 → (300 : ℕ) ≤ 128 →
      create_favicon someFilter (solidImage 500 300 ⟨0, 200, 0, 255⟩) =
        solidImage 500 300 ⟨0, 200, 0, 255⟩) ∧
    thumbnail_dims 50 50 = (50, 50) ∧
    thumbnail_dims 500 300 = (128, 77) :=
  C5_create_favicon_bounds someFilter (solidImage 500 300 ⟨0, 200, 0, 255⟩)
    (by decide) (by decide)

/-- C6: for every input image and resampling filter, each entry of the fixed
mapping produces an image whose dimensions are exactly the requested square
size — `favicon-16x16.png` is 16 × 16, `favicon-32x32.png` is 32 × 32,
`favicon-192x192.png` is 192 × 192 and `apple-touch-icon.png` is 180 × 180,
regardless of the input's dimensions or aspect ratio. -/
theorem C6_exact_square_sizes (filter : Resample) (img : Image) :
    (create_favicon_sizes_pngs filter img).map
        (fun e => (e.1, e.2.width, e.2.height)) =
      [("favicon-16x16.png", 16, 16), ("favicon-32x32.png", 32, 32),
       ("favicon-192x192.png", 192, 192), ("apple-touch-icon.png", 180, 180)] :=
  rfl

/-- C7: for every input image and resampling filter, the ICO container
receives exactly three images, of dimensions 16 × 16, 32 × 32 and 48 × 48 in
that order, and the sizes recorded in the container equal the actual pixel
dimensions of the images appended into it. -/
theorem C7_ico_sizes (filter : Resample) (img : Image) :
    (ico_images filter img).length = 3 ∧
    (ico_images filter img).map (fun i => (i.width, i.height)) =
      [(16, 16), (32, 32), (48, 48)] ∧
    ico_recorded_sizes filter img =
      (ico_images filter img).map (fun i => (i.width, i.height)) :=
  ⟨rfl, rfl, rfl⟩
